import Mathlib

/-!
Verification of the mms micromouse simulator core against its specification.

The development shallowly embeds the C++ sources `src/sim/MazeFileUtilities.cpp`
and `src/sim/Mouse.cpp`.  Machine text files are modelled at the token level:
a numeric maze file is a list of lines, each line the list of integer tokens
obtained from `SimUtilities::tokenize` and `strToInt` (both outside the given
sources; per the specification, tokens are whitespace separated integers).
C++ `double` arithmetic is modelled by real numbers; C++ assertions
(`SIM_ASSERT_TR`, `ASSERT_LE`, ...) abort the program, which we model by
`Option`: `none` is an assertion failure.
-/

set_option autoImplicit false

namespace MMS

open Real

/-- The four cardinal directions, as in `Direction.h`. -/
inductive Direction
  | NORTH
  | EAST
  | SOUTH
  | WEST
deriving DecidableEq, Repr, Inhabited

/-- Modelled from the spec: the fixed iteration order of `DIRECTIONS`
(`Directions.h` is not among the given sources); the spec fixes the wall
order N, E, S, W for the numeric format. -/
def DIRECTIONS : List Direction :=
  [Direction.NORTH, Direction.EAST, Direction.SOUTH, Direction.WEST]

/-- Modelled from the spec: `SimUtilities::getDirectionIndex`, the index of a
direction in the fixed order N, E, S, W (`SimUtilities.cpp` is not among the
given sources). -/
def getDirectionIndex : Direction → Nat
  | Direction.NORTH => 0
  | Direction.EAST => 1
  | Direction.SOUTH => 2
  | Direction.WEST => 3

/-- A `BasicTile`: one wall boolean per direction (the C++ member is a
`std::map<Direction, bool>`; in the numeric loader every direction is
inserted exactly once, so a record of four booleans is a faithful model). -/
structure BasicTile where
  north : Bool
  east : Bool
  south : Bool
  west : Bool
deriving DecidableEq, Repr, Inhabited

/-- Wall lookup `tile.walls.at(direction)`. -/
def BasicTile.walls (t : BasicTile) : Direction → Bool
  | Direction.NORTH => t.north
  | Direction.EAST => t.east
  | Direction.SOUTH => t.south
  | Direction.WEST => t.west

/-- The in-memory maze representation `std::vector<std::vector<BasicTile>>`,
column-major: outer index x, inner index y. -/
abbrev BasicMaze := List (List BasicTile)

/-- Wall accessor on a column-major grid (out-of-range reads give the default
tile; used only at in-range points in the statements below). -/
def hasWall (maze : BasicMaze) (x y : Nat) (d : Direction) : Bool :=
  (((maze.getD x []).getD y default).walls d)

/-- The `walls.at(direction) ? 1 : 0` emitted by the writer. -/
def bitOfWall (b : Bool) : Int := if b then 1 else 0

/-- One output line of `saveMazeFileNumType` for the tile at (x, y):
`x y n e s w`, walls in the fixed order N, E, S, W. -/
def tileLine (x y : Nat) (t : BasicTile) : List Int :=
  [(x : Int), (y : Int),
   bitOfWall t.north, bitOfWall t.east, bitOfWall t.south, bitOfWall t.west]

/-- The inner loop of `saveMazeFileNumType`: all lines of column `x`,
starting at row index `y`. -/
def saveColAux (x : Nat) (y : Nat) : List BasicTile → List (List Int)
  | [] => []
  | t :: ts => tileLine x y t :: saveColAux x (y + 1) ts

/-- The outer loop of `saveMazeFileNumType`: all lines of the columns,
starting at column index `x`. -/
def saveNumAux (x : Nat) : BasicMaze → List (List Int)
  | [] => []
  | c :: cs => saveColAux x 0 c ++ saveNumAux (x + 1) cs

/-- `MazeFileUtilities::saveMazeFileNumType`: emit every tile in column-major
order, each line `x y n e s w`. -/
def saveMazeFileNumType (maze : BasicMaze) : List (List Int) :=
  saveNumAux 0 maze

/-- Decoding of one line by `loadMazeFileNumType`: wall booleans are the
tokens at positions 2 + getDirectionIndex(direction), compared with 1. -/
def tileOfTokens (line : List Int) : BasicTile :=
  { north := line.getD (2 + getDirectionIndex Direction.NORTH) 0 == 1
    east := line.getD (2 + getDirectionIndex Direction.EAST) 0 == 1
    south := line.getD (2 + getDirectionIndex Direction.SOUTH) 0 == 1
    west := line.getD (2 + getDirectionIndex Direction.WEST) 0 == 1 }

/-- The line-reading loop of `loadMazeFileNumType`, with its two pieces of
state: the columns appended so far (`maze`) and the current column. When a
line's x token exceeds the number of appended columns, the current column is
appended and a fresh column is started; the line's tile is always appended
to the current column. -/
def loadNumAux : List (List Int) → BasicMaze → List BasicTile → BasicMaze
  | [], maze, column => maze ++ [column]
  | line :: rest, maze, column =>
    let tile := tileOfTokens line
    if (maze.length : Int) < line.headI then
      loadNumAux rest (maze ++ [column]) [tile]
    else
      loadNumAux rest maze (column ++ [tile])

/-- Validation diagnostics of `isMazeFileNumType` (the C++ logs a warning and
returns false; we record which warning fires, with its data). -/
inductive NumErr
  | emptyFile
  | wrongEntryCount (lineNum entries : Nat)
  | unexpectedXY (x y : Int) (lineNum : Nat)
  | badWallValue (value : Int) (position lineNum : Nat)
deriving DecidableEq, Repr

/-- The wall-value loop of `isMazeFileNumType`: values at positions 2..5 must
each be 0 or 1; the first offending value is reported with its 1-based
position and line number. -/
def wallCheckAux (line : List Int) (lineNum : Nat) : List Nat → Option NumErr
  | [] => none
  | i :: rest =>
    let value := line.getD (2 + i) 0
    if value = 0 ∨ value = 1 then wallCheckAux line lineNum rest
    else some (NumErr.badWallValue value (2 + i + 1) lineNum)

/-- The line loop of `isMazeFileNumType`, carrying the line counter and the
expected x and y values. Case one: the line is (expectedX, expectedY). Case
two: the line is (expectedX + 1, 0) and expectedY is nonzero (so the first
line must be (0, 0)). Anything else is the unexpected-x-and-y diagnostic. -/
def checkNumAux : List (List Int) → Nat → Int → Int → Option NumErr
  | [], _, _, _ => none
  | line :: rest, lineNum, expectedX, expectedY =>
    let n := lineNum + 1
    if line.length = 6 then
      let x := line.getD 0 0
      let y := line.getD 1 0
      if x = expectedX ∧ y = expectedY then
        match wallCheckAux line n [0, 1, 2, 3] with
        | some e => some e
        | none => checkNumAux rest n expectedX (expectedY + 1)
      else if x = expectedX + 1 ∧ y = 0 ∧ expectedY ≠ 0 then
        match wallCheckAux line n [0, 1, 2, 3] with
        | some e => some e
        | none => checkNumAux rest n (expectedX + 1) 1
      else some (NumErr.unexpectedXY x y n)
    else some (NumErr.wrongEntryCount n line.length)

/-- `MazeFileUtilities::isMazeFileNumType`, with the diagnostic that made it
return false (`none` means the file validates). The file is given as its
tokenized lines; an empty file has no lines. -/
def isMazeFileNumTypeE (lines : List (List Int)) : Option NumErr :=
  if lines.isEmpty then some NumErr.emptyFile
  else checkNumAux lines 0 0 0

/-- The boolean result of `MazeFileUtilities::isMazeFileNumType`. -/
def isMazeFileNumType (lines : List (List Int)) : Bool :=
  (isMazeFileNumTypeE lines).isNone

/-- `MazeFileUtilities::isMazeFileBinType`: the source body is exactly
`return false`. -/
def isMazeFileBinType (mazeFilePath : String) : Bool := false

/-- `MazeFileUtilities::isMazeFileMapType`: the source body is exactly
`return false`; no path is ever detected as a map-format maze file. -/
def isMazeFileMapType (mazeFilePath : String) : Bool := false

/-- `MazeFileUtilities::loadMazeFileNumType`: asserts `isMazeFileNumType`
(assertion failure modelled as `none`), then runs the reading loop with
empty initial state and appends the final column. -/
def loadMazeFileNumType (lines : List (List Int)) : Option BasicMaze :=
  if isMazeFileNumType lines then some (loadNumAux lines [] []) else none

/-- `MazeFileUtilities::loadMaze`: dispatch on the three detectors. The bin
branch is `loadMazeFileBinType`, whose body is `SIM_ASSERT_TR(false)`; the
map branch is `loadMazeFileMapType`, whose first statement asserts
`isMazeFileMapType(mazeFilePath)` - a constant false - so both abort
(modelled as `none`; both branches are in fact dead since their detectors
return false). If no detector matches, `SIM_ASSERT_TR(false)` aborts. -/
def loadMaze (mazeFilePath : String) (lines : List (List Int)) :
    Option BasicMaze :=
  if isMazeFileBinType mazeFilePath then none
  else if isMazeFileMapType mazeFilePath then none
  else if isMazeFileNumType lines then some (loadNumAux lines [] []) else none

/-- The (x, y) coordinate tokens of a line. -/
def lineCoords (line : List Int) : Int × Int := (line.getD 0 0, line.getD 1 0)

/-- Column-major (colexicographic) strict order on coordinates: sorted by x
ascending, then by y ascending. -/
def coordLt (a b : Int × Int) : Prop :=
  a.1 < b.1 ∨ (a.1 = b.1 ∧ a.2 < b.2)

instance : DecidableRel coordLt := by
  intro a b
  unfold coordLt
  infer_instance

instance : IsTrans (Int × Int) coordLt := by
  constructor
  intro a b c hab hbc
  rcases a with ⟨a1, a2⟩
  rcases b with ⟨b1, b2⟩
  rcases c with ⟨c1, c2⟩
  simp only [coordLt] at hab hbc ⊢
  omega

/-!
Kinematics: the shallow embedding of `src/sim/Mouse.cpp`. All physical unit
types (Meters, Radians, MetersPerSecond, ...) are dimension-tagged doubles
in the source; they are modelled as real numbers. Cartesian points are
pairs of reals.
-/

noncomputable section

/-- The polar angle accessor `Cartesian::getTheta` (atan2 of y over x),
via the argument of the corresponding complex number. -/
def theta (p : ℝ × ℝ) : ℝ := Complex.arg ⟨p.1, p.2⟩

/-- The Euclidean norm accessor `Cartesian::getRho`. -/
def rho (p : ℝ × ℝ) : ℝ := Real.sqrt (p.1 ^ 2 + p.2 ^ 2)

/-- Degrees to radians, as in the units library. -/
def degToRad (d : ℝ) : ℝ := d * π / 180

/-- `Angle::getRadiansZeroTo2pi`: the radian value normalized to [0, 2π). -/
def radiansZeroTo2pi (x : ℝ) : ℝ := x - 2 * π * ⌊x / (2 * π)⌋

/-- `RadiansPerSecond::getRevolutionsPerMinute`: radians per second times
sixty seconds per minute over 2π radians per revolution (the units library
is not among the given sources; the conversion is the standard one, and the
theorems below depend only on its being a positive scaling). -/
def rpmOf (x : ℝ) : ℝ := x * 60 / (2 * π)

/-- A polygon: the ordered list of its vertices. -/
abbrev Polygon := List (ℝ × ℝ)

/-- Modelled from the spec: `GeometryUtilities::translateVertex`
(`GeometryUtilities.cpp` is not among the given sources); translation of a
point by a displacement. -/
def translateVertex (v d : ℝ × ℝ) : ℝ × ℝ := (v.1 + d.1, v.2 + d.2)

/-- Modelled from the spec: `GeometryUtilities::rotateVertexAroundPoint`
(`GeometryUtilities.cpp` is not among the given sources); rotation of a
point by an angle about a pivot. -/
def rotateVertexAroundPoint (v : ℝ × ℝ) (a : ℝ) (pivot : ℝ × ℝ) : ℝ × ℝ :=
  (pivot.1 + (v.1 - pivot.1) * Real.cos a - (v.2 - pivot.2) * Real.sin a,
   pivot.2 + (v.1 - pivot.1) * Real.sin a + (v.2 - pivot.2) * Real.cos a)

/-- `Polygon::translate`: translate every vertex. -/
def Polygon.translate (p : Polygon) (d : ℝ × ℝ) : Polygon :=
  p.map fun v => translateVertex v d

/-- `Polygon::rotateAroundPoint`: rotate every vertex about the pivot. -/
def Polygon.rotateAroundPoint (p : Polygon) (a : ℝ) (pivot : ℝ × ℝ) : Polygon :=
  p.map fun v => rotateVertexAroundPoint v a pivot

/-- A `Wheel` (from `Wheel.h`): initial placement, geometry, speed limit,
mutable angular velocity and accumulated rotation, initial polygon. Encoder
bookkeeping not needed by the claims is omitted. -/
structure Wheel where
  initialPosition : ℝ × ℝ
  initialDirection : ℝ
  radius : ℝ
  maxAngularVelocityMagnitude : ℝ
  angularVelocity : ℝ
  rotation : ℝ
  initialPolygon : Polygon

/-- A `Sensor`: initial placement and initial polygon (reading state and the
view machinery live in `Sensor.cpp`, not among the given sources, and do not
affect the pose claims). -/
structure Sensor where
  initialPosition : ℝ × ℝ
  initialDirection : ℝ
  initialPolygon : Polygon

/-- The `Mouse` state: initial and current pose, gyro, simulated time, the
body polygon, the wheels and sensors (the C++ keeps them in maps ordered by
name; a list in that fixed order is the model, with the wheel-speed
adjustment factors aligned positionally, as the C++ name lookups align
them), and the derived factor tables. -/
structure Mouse where
  initialTranslation : ℝ × ℝ
  initialRotation : ℝ
  currentTranslation : ℝ × ℝ
  currentRotation : ℝ
  currentGyro : ℝ
  elapsedSimTime : ℝ
  initialBodyPolygon : Polygon
  wheels : List Wheel
  sensors : List Sensor
  wheelSpeedAdjustmentFactors : List (ℝ × ℝ)
  curveTurnFactors : ℝ × ℝ

/-- `Mouse::getRatesOfChange`: the forward rate is the wheel linear velocity
times the cosine of (initial rotation minus wheel direction); the radial
rate is the wheel linear velocity times the sine of (the polar angle of the
wheel-to-center vector minus wheel direction) times the reciprocal of that
vector's norm. -/
def getRatesOfChange (initialTranslation : ℝ × ℝ) (initialRotation : ℝ)
    (wheelInitialPosition : ℝ × ℝ) (wheelInitialDirection : ℝ)
    (wheelLinearVelocity : ℝ) : ℝ × ℝ :=
  let forwardRateOfChange :=
    wheelLinearVelocity * Real.cos (initialRotation - wheelInitialDirection)
  let wheelToCenter :=
    (initialTranslation.1 - wheelInitialPosition.1,
     initialTranslation.2 - wheelInitialPosition.2)
  let radialRateOfChange :=
    wheelLinearVelocity *
      Real.sin (theta wheelToCenter - wheelInitialDirection) *
      (1 / rho wheelToCenter)
  (forwardRateOfChange, radialRateOfChange)

/-- The per-wheel forward rate used in `Mouse::update`, at the wheel's
current angular velocity times its radius. -/
def wheelForwardRate (m : Mouse) (w : Wheel) : ℝ :=
  (getRatesOfChange m.initialTranslation m.initialRotation
    w.initialPosition w.initialDirection (w.angularVelocity * w.radius)).1

/-- The per-wheel radial rate used in `Mouse::update`. -/
def wheelRadialRate (m : Mouse) (w : Wheel) : ℝ :=
  (getRatesOfChange m.initialTranslation m.initialRotation
    w.initialPosition w.initialDirection (w.angularVelocity * w.radius)).2

/-- The average forward rate over all wheels (`mean(v_forward)` of the
spec). -/
def aveForwardRate (m : Mouse) : ℝ :=
  (m.wheels.map fun w => wheelForwardRate m w).sum / (m.wheels.length : ℝ)

/-- The average radial rate over all wheels (`mean(omega_radial)` of the
spec); this is `aveDr` in `Mouse::update`. -/
def aveRadialRate (m : Mouse) : ℝ :=
  (m.wheels.map fun w => wheelRadialRate m w).sum / (m.wheels.length : ℝ)

/-- `Mouse::update(elapsed)`: one integrator tick. The loop accumulates, per
wheel, the forward rate resolved through the cosine and sine of
`getCurrentRotation()` - read before the rotation is incremented - and the
radial rate; it also accumulates each wheel's rotation. The averages then
update gyro, rotation, translation and elapsed time in that order. The
sensor-reading refresh (`Sensor::updateReading`, not among the given
sources) touches only sensor reading state, never the pose, and is omitted. -/
def update (m : Mouse) (elapsed : ℝ) : Mouse :=
  let sumDx :=
    (m.wheels.map fun w => wheelForwardRate m w * Real.cos m.currentRotation).sum
  let sumDy :=
    (m.wheels.map fun w => wheelForwardRate m w * Real.sin m.currentRotation).sum
  let sumDr := (m.wheels.map fun w => wheelRadialRate m w).sum
  let aveDx := sumDx / (m.wheels.length : ℝ)
  let aveDy := sumDy / (m.wheels.length : ℝ)
  let aveDr := sumDr / (m.wheels.length : ℝ)
  { m with
    wheels := m.wheels.map fun w =>
      { w with rotation := w.rotation + w.angularVelocity * elapsed }
    currentGyro := aveDr
    currentRotation := m.currentRotation + aveDr * elapsed
    currentTranslation :=
      (m.currentTranslation.1 + aveDx * elapsed,
       m.currentTranslation.2 + aveDy * elapsed)
    elapsedSimTime := m.elapsedSimTime + elapsed }

/-- `Mouse::getCurrentPolygon`: the initial polygon translated by the
translation delta, then rotated by the rotation delta about the current
translation. -/
def getCurrentPolygon (m : Mouse) (initialPolygon : Polygon)
    (currentTranslation : ℝ × ℝ) (currentRotation : ℝ) : Polygon :=
  (initialPolygon.translate
      (currentTranslation.1 - m.initialTranslation.1,
       currentTranslation.2 - m.initialTranslation.2)).rotateAroundPoint
    (currentRotation - m.initialRotation) currentTranslation

/-- `Mouse::getCurrentBodyPolygon`. -/
def getCurrentBodyPolygon (m : Mouse) (currentTranslation : ℝ × ℝ)
    (currentRotation : ℝ) : Polygon :=
  getCurrentPolygon m m.initialBodyPolygon currentTranslation currentRotation

/-- `Mouse::getCurrentWheelPolygons`. -/
def getCurrentWheelPolygons (m : Mouse) (currentTranslation : ℝ × ℝ)
    (currentRotation : ℝ) : List Polygon :=
  m.wheels.map fun w =>
    getCurrentPolygon m w.initialPolygon currentTranslation currentRotation

/-- `Mouse::getCurrentSensorPolygons`. -/
def getCurrentSensorPolygons (m : Mouse) (currentTranslation : ℝ × ℝ)
    (currentRotation : ℝ) : List Polygon :=
  m.sensors.map fun s =>
    getCurrentPolygon m s.initialPolygon currentTranslation currentRotation

/-- The normalizing divisor of `Mouse::setWheelSpeedsForMovement`:
`factorMagnitude = std::abs(forwardFactor) + std::abs(turnFactor)`. -/
def factorMagnitude (forwardFactor turnFactor : ℝ) : ℝ :=
  |forwardFactor| + |turnFactor|

/-- The normalized factors of `Mouse::setWheelSpeedsForMovement`: each factor
divided by `factorMagnitude` (no guard against a zero divisor). -/
def normalizedFactors (forwardFactor turnFactor : ℝ) : ℝ × ℝ :=
  (forwardFactor / factorMagnitude forwardFactor turnFactor,
   turnFactor / factorMagnitude forwardFactor turnFactor)

open Classical in
/-- `Mouse::setWheelSpeeds`: asserts, per wheel, that the absolute value of
the requested speed (in rpm) is at most the wheel's maximum (in rpm), then
sets each wheel's angular velocity. Assertion failure is `none`. -/
def setWheelSpeeds (m : Mouse) (wheelSpeeds : List ℝ) : Option Mouse :=
  if ∀ p ∈ m.wheels.zip wheelSpeeds,
      |rpmOf p.2| ≤ rpmOf p.1.maxAngularVelocityMagnitude then
    some { m with
      wheels := (m.wheels.zip wheelSpeeds).map fun p =>
        { p.1 with angularVelocity := p.2 } }
  else none

/-- The wheel-speed list built by `Mouse::setWheelSpeedsForMovement`: per
wheel, max angular velocity magnitude times the fraction times the linear
combination of the wheel's adjustment factors by the normalized movement
factors. -/
def movementWheelSpeeds (m : Mouse) (fractionOfMaxSpeed forwardFactor
    turnFactor : ℝ) : List ℝ :=
  let nf := (normalizedFactors forwardFactor turnFactor).1
  let nt := (normalizedFactors forwardFactor turnFactor).2
  (m.wheels.zip m.wheelSpeedAdjustmentFactors).map fun p =>
    p.1.maxAngularVelocityMagnitude * fractionOfMaxSpeed *
      (nf * p.2.1 + nt * p.2.2)

open Classical in
/-- `Mouse::setWheelSpeedsForMovement`: normalize the two factors, assert
that the sum of the normalized magnitudes lies in [0, 1], then set the
per-wheel speeds through `setWheelSpeeds`. -/
def setWheelSpeedsForMovement (m : Mouse) (fractionOfMaxSpeed forwardFactor
    turnFactor : ℝ) : Option Mouse :=
  let nf := (normalizedFactors forwardFactor turnFactor).1
  let nt := (normalizedFactors forwardFactor turnFactor).2
  let normalizedFactorMagnitude := |nf| + |nt|
  if 0 ≤ normalizedFactorMagnitude ∧ normalizedFactorMagnitude ≤ 1 then
    setWheelSpeeds m
      (movementWheelSpeeds m fractionOfMaxSpeed forwardFactor turnFactor)
  else none

/-- `Mouse::stopAllWheels`: a zero speed for every wheel, passed directly to
`setWheelSpeeds` (no normalization). -/
def stopAllWheels (m : Mouse) : Option Mouse :=
  setWheelSpeeds m (m.wheels.map fun _ => 0)

/-- The maximum linear velocity of a wheel, as computed in
`Mouse::getCurveTurnFactors`. -/
def maxLinearVelocity (w : Wheel) : ℝ :=
  w.maxAngularVelocityMagnitude * w.radius

/-- `Mouse::getCurveTurnFactors`: for each wheel, add the rates of change
from driving the wheel at its maximum linear velocity scaled by each of its
two adjustment factors; then return A = (arc length over the radians of 90
degrees) times (total radial rate over total forward rate), and B = 1. -/
def getCurveTurnFactors (initialTranslation : ℝ × ℝ) (initialRotation : ℝ)
    (wheels : List Wheel) (wheelSpeedAdjustmentFactors : List (ℝ × ℝ))
    (curveTurnArcLength : ℝ) : ℝ × ℝ :=
  let pairs := wheels.zip wheelSpeedAdjustmentFactors
  let totalForwardRateOfChange :=
    (pairs.map fun p =>
      (getRatesOfChange initialTranslation initialRotation
        p.1.initialPosition p.1.initialDirection
        (maxLinearVelocity p.1 * p.2.1)).1 +
      (getRatesOfChange initialTranslation initialRotation
        p.1.initialPosition p.1.initialDirection
        (maxLinearVelocity p.1 * p.2.2)).1).sum
  let totalRadialRateOfChange :=
    (pairs.map fun p =>
      (getRatesOfChange initialTranslation initialRotation
        p.1.initialPosition p.1.initialDirection
        (maxLinearVelocity p.1 * p.2.1)).2 +
      (getRatesOfChange initialTranslation initialRotation
        p.1.initialPosition p.1.initialDirection
        (maxLinearVelocity p.1 * p.2.2)).2).sum
  let B := 1
  let A :=
    curveTurnArcLength / radiansZeroTo2pi (degToRad 90) *
      (totalRadialRateOfChange / totalForwardRateOfChange)
  (A, B)

/-!
Spec-side definitions, written from the specification's words, to be
compared with the source-side definitions above.
-/

/-- The spec's forward rate: `v_forward = v_w * cos(R0 - D_w)`. -/
def forwardRateOfChangeSpec (v R0 Dw : ℝ) : ℝ := v * Real.cos (R0 - Dw)

/-- The spec's radial rate: with u = P0 - P_w,
`omega_radial = v_w * sin(theta(u) - D_w) / norm(u)`. -/
def radialRateOfChangeSpec (v : ℝ) (P0 Pw : ℝ × ℝ) (Dw : ℝ) : ℝ :=
  v * Real.sin (theta (P0.1 - Pw.1, P0.2 - Pw.2) - Dw) /
    rho (P0.1 - Pw.1, P0.2 - Pw.2)

/-- The spec's total forward rate for the curve-turn computation: the sum of
the forward contributions of driving every wheel at max times a_f, plus the
sum from driving every wheel at max times a_t. -/
def totalForwardRateSpec (initT : ℝ × ℝ) (initR : ℝ) (wheels : List Wheel)
    (factors : List (ℝ × ℝ)) : ℝ :=
  ((wheels.zip factors).map fun p =>
    forwardRateOfChangeSpec (maxLinearVelocity p.1 * p.2.1) initR
      p.1.initialDirection).sum +
  ((wheels.zip factors).map fun p =>
    forwardRateOfChangeSpec (maxLinearVelocity p.1 * p.2.2) initR
      p.1.initialDirection).sum

/-- The spec's total radial rate for the curve-turn computation. -/
def totalRadialRateSpec (initT : ℝ × ℝ) (initR : ℝ) (wheels : List Wheel)
    (factors : List (ℝ × ℝ)) : ℝ :=
  ((wheels.zip factors).map fun p =>
    radialRateOfChangeSpec (maxLinearVelocity p.1 * p.2.1) initT
      p.1.initialPosition p.1.initialDirection).sum +
  ((wheels.zip factors).map fun p =>
    radialRateOfChangeSpec (maxLinearVelocity p.1 * p.2.2) initT
      p.1.initialPosition p.1.initialDirection).sum

/-- The spec's polygon transform: the initial polygon, each vertex translated
by (currentTranslation - initialTranslation) and then rotated by
(currentRotation - initialRotation) about currentTranslation. -/
def specCurrentPolygon (initialPolygon : Polygon) (initT : ℝ × ℝ)
    (initR : ℝ) (ct : ℝ × ℝ) (cr : ℝ) : Polygon :=
  initialPolygon.map fun v =>
    rotateVertexAroundPoint (translateVertex v (ct.1 - initT.1, ct.2 - initT.2))
      (cr - initR) ct

end

/-! Helper lemmas. -/

lemma ratesOfChange_fst (P0 : ℝ × ℝ) (R0 : ℝ) (Pw : ℝ × ℝ) (Dw v : ℝ) :
    (getRatesOfChange P0 R0 Pw Dw v).1 = forwardRateOfChangeSpec v R0 Dw := rfl

lemma ratesOfChange_snd (P0 : ℝ × ℝ) (R0 : ℝ) (Pw : ℝ × ℝ) (Dw v : ℝ) :
    (getRatesOfChange P0 R0 Pw Dw v).2 = radialRateOfChangeSpec v P0 Pw Dw := by
  unfold getRatesOfChange radialRateOfChangeSpec
  simp only []
  rw [mul_one_div]

lemma list_sum_map_add {α : Type} (l : List α) (f g : α → ℝ) :
    (l.map fun x => f x + g x).sum = (l.map f).sum + (l.map g).sum := by
  induction l with
  | nil => simp
  | cons a t ih =>
    simp only [List.map_cons, List.sum_cons, ih]
    ring

lemma radiansZeroTo2pi_ninety : radiansZeroTo2pi (degToRad 90) = π / 2 := by
  unfold radiansZeroTo2pi degToRad
  have h90 : (90 : ℝ) * π / 180 = π / 2 := by ring
  rw [h90]
  have hq : π / 2 / (2 * π) = 1 / 4 := by
    field_simp [Real.pi_ne_zero]
    ring
  rw [hq]
  have h0 : ⌊(1 / 4 : ℝ)⌋ = 0 := by
    rw [Int.floor_eq_zero_iff]
    constructor <;> norm_num
  rw [h0]
  norm_num

/-- C2: for every wheel with linear velocity its angular velocity times its
radius, `Mouse::getRatesOfChange` returns the pair of the spec's forward
rate `v * cos(R0 - D_w)` and the spec's radial rate
`v * sin(theta(P0 - P_w) - D_w) / norm(P0 - P_w)`. -/
theorem getRatesOfChange_matches_spec (P0 : ℝ × ℝ) (R0 : ℝ) (w : Wheel) :
    getRatesOfChange P0 R0 w.initialPosition w.initialDirection
      (w.angularVelocity * w.radius) =
    (forwardRateOfChangeSpec (w.angularVelocity * w.radius) R0
       w.initialDirection,
     radialRateOfChangeSpec (w.angularVelocity * w.radius) P0
       w.initialPosition w.initialDirection) := by
  rw [← ratesOfChange_fst P0 R0 w.initialPosition w.initialDirection
        (w.angularVelocity * w.radius),
      ← ratesOfChange_snd P0 R0 w.initialPosition w.initialDirection
        (w.angularVelocity * w.radius)]

/-- C5: `Mouse::getCurveTurnFactors`, called with the arc length
`L = pi * (wallLength / 2) / 2` that `Mouse::initialize` passes, returns
(A, B) with B = 1 and `A = (L / (pi / 2)) * (totalRadial / totalForward)`,
where the totals sum the contributions of driving each wheel at its max
linear velocity times a_f and then times a_t. -/
theorem getCurveTurnFactors_matches_spec (initT : ℝ × ℝ) (initR : ℝ)
    (wheels : List Wheel) (factors : List (ℝ × ℝ)) (wallLength : ℝ) :
    getCurveTurnFactors initT initR wheels factors
      (wallLength / 2 * 0.5 * π) =
    (π * (wallLength / 2) / 2 / (π / 2) *
       (totalRadialRateSpec initT initR wheels factors /
        totalForwardRateSpec initT initR wheels factors), 1) := by
  unfold getCurveTurnFactors totalForwardRateSpec totalRadialRateSpec
  simp only [ratesOfChange_fst, ratesOfChange_snd, radiansZeroTo2pi_ninety]
  rw [list_sum_map_add (wheels.zip factors)
        (fun p => forwardRateOfChangeSpec (maxLinearVelocity p.1 * p.2.1)
          initR p.1.initialDirection)
        (fun p => forwardRateOfChangeSpec (maxLinearVelocity p.1 * p.2.2)
          initR p.1.initialDirection),
      list_sum_map_add (wheels.zip factors)
        (fun p => radialRateOfChangeSpec (maxLinearVelocity p.1 * p.2.1)
          initT p.1.initialPosition p.1.initialDirection)
        (fun p => radialRateOfChangeSpec (maxLinearVelocity p.1 * p.2.2)
          initT p.1.initialPosition p.1.initialDirection)]
  have harc : wallLength / 2 * 0.5 * π = π * (wallLength / 2) / 2 := by ring
  rw [harc]

/-- C9: at any pose, the body, wheel and sensor polygons returned by the
mouse are the initial polygons translated by the translation delta and then
rotated by the rotation delta about the current translation. -/
theorem current_polygons_transform (m : Mouse) (ct : ℝ × ℝ) (cr : ℝ) :
    getCurrentBodyPolygon m ct cr =
      specCurrentPolygon m.initialBodyPolygon m.initialTranslation
        m.initialRotation ct cr ∧
    getCurrentWheelPolygons m ct cr =
      m.wheels.map (fun w =>
        specCurrentPolygon w.initialPolygon m.initialTranslation
          m.initialRotation ct cr) ∧
    getCurrentSensorPolygons m ct cr =
      m.sensors.map (fun s =>
        specCurrentPolygon s.initialPolygon m.initialTranslation
          m.initialRotation ct cr) := by
  unfold getCurrentBodyPolygon getCurrentWheelPolygons
    getCurrentSensorPolygons getCurrentPolygon specCurrentPolygon
    Polygon.translate Polygon.rotateAroundPoint
  refine ⟨?_, ?_, ?_⟩ <;> simp [List.map_map, Function.comp]

lemma update_pose_eq (m : Mouse) (elapsed : ℝ) :
    (update m elapsed).currentRotation =
      m.currentRotation + aveRadialRate m * elapsed ∧
    (update m elapsed).currentTranslation =
      (m.currentTranslation.1 +
         aveForwardRate m * Real.cos m.currentRotation * elapsed,
       m.currentTranslation.2 +
         aveForwardRate m * Real.sin m.currentRotation * elapsed) := by
  unfold update aveRadialRate aveForwardRate
  refine ⟨rfl, ?_⟩
  simp only []
  rw [List.sum_map_mul_right, List.sum_map_mul_right]
  have hx : (m.wheels.map fun w => wheelForwardRate m w).sum *
      Real.cos m.currentRotation / (m.wheels.length : ℝ) =
      (m.wheels.map fun w => wheelForwardRate m w).sum /
        (m.wheels.length : ℝ) * Real.cos m.currentRotation := by ring
  have hy : (m.wheels.map fun w => wheelForwardRate m w).sum *
      Real.sin m.currentRotation / (m.wheels.length : ℝ) =
      (m.wheels.map fun w => wheelForwardRate m w).sum /
        (m.wheels.length : ℝ) * Real.sin m.currentRotation := by ring
  rw [hx, hy]

/-!
Concrete sample mice, used to settle C1 and to witness C6 and C10. `M1` has
one wheel of radius 1 directly above the mouse center, rolling east
(direction 0), spinning at angular velocity -(pi/2), with the mouse at
rotation 0: the tick over one second turns the mouse by pi/2 while
translating it by -(pi/2) along the old heading.
-/

noncomputable def M1wheel : Wheel :=
  { initialPosition := (0, 1)
    initialDirection := 0
    radius := 1
    maxAngularVelocityMagnitude := π
    angularVelocity := -(π / 2)
    rotation := 0
    initialPolygon := [] }

noncomputable def M1 : Mouse :=
  { initialTranslation := (0, 0)
    initialRotation := 0
    currentTranslation := (0, 0)
    currentRotation := 0
    currentGyro := 0
    elapsedSimTime := 0
    initialBodyPolygon := []
    wheels := [M1wheel]
    sensors := []
    wheelSpeedAdjustmentFactors := [(1, -1)]
    curveTurnFactors := (0, 1) }

lemma theta_zero_neg_one : theta (0, -1) = -(π / 2) := by
  unfold theta
  have h : (⟨0, -1⟩ : ℂ) = -Complex.I := by
    apply Complex.ext <;> simp
  rw [h, Complex.arg_neg_I]

lemma rho_zero_neg_one : rho (0, -1) = 1 := by
  unfold rho
  have h : ((0 : ℝ) ^ 2 + (-1 : ℝ) ^ 2) = 1 := by norm_num
  rw [h, Real.sqrt_one]

lemma wheelForwardRate_M1 : wheelForwardRate M1 M1wheel = -(π / 2) := by
  unfold wheelForwardRate getRatesOfChange
  simp [M1, M1wheel]

lemma wheelRadialRate_M1 : wheelRadialRate M1 M1wheel = π / 2 := by
  unfold wheelRadialRate getRatesOfChange
  simp only [M1, M1wheel]
  norm_num [theta_zero_neg_one, rho_zero_neg_one]

lemma aveForwardRate_M1 : aveForwardRate M1 = -(π / 2) := by
  unfold aveForwardRate
  have h : M1.wheels = [M1wheel] := rfl
  rw [h]
  simp [wheelForwardRate_M1]

lemma aveRadialRate_M1 : aveRadialRate M1 = π / 2 := by
  unfold aveRadialRate
  have h : M1.wheels = [M1wheel] := rfl
  rw [h]
  simp [wheelRadialRate_M1]

/-- C1 (counterexample): for the one-wheel mouse `M1` and one second of
elapsed time, the x translation produced by `Mouse::update` is not the
average forward rate resolved through the cosine of the updated (new)
rotation: the code resolves through the rotation read before the increment. -/
theorem update_newRotation_claim_false :
    ¬ ((update M1 1).currentTranslation.1 =
        M1.currentTranslation.1 +
          aveForwardRate M1 * Real.cos ((update M1 1).currentRotation) * 1) := by
  obtain ⟨hrot, htrans⟩ := update_pose_eq M1 1
  rw [htrans, hrot, aveForwardRate_M1, aveRadialRate_M1]
  have hc : M1.currentRotation = 0 := rfl
  have ht : M1.currentTranslation.1 = 0 := rfl
  rw [hc, ht]
  norm_num [Real.cos_pi_div_two, Real.pi_ne_zero]

/-- C1 (amended): the translation increment of `Mouse::update` resolves the
average forward rate through the cosine and sine of the rotation read before
the rotation increment (the old rotation: a first-order integrator variant),
while the rotation is incremented by the average radial rate times the
elapsed time. -/
theorem update_translation_old_rotation (m : Mouse) (elapsed : ℝ) :
    (update m elapsed).currentRotation =
      m.currentRotation + aveRadialRate m * elapsed ∧
    (update m elapsed).currentTranslation =
      (m.currentTranslation.1 +
         aveForwardRate m * Real.cos m.currentRotation * elapsed,
       m.currentTranslation.2 +
         aveForwardRate m * Real.sin m.currentRotation * elapsed) :=
  update_pose_eq m elapsed

/-! Wheel-speed synthesizer claims. -/

lemma two_pi_pos : (0 : ℝ) < 2 * π := by positivity

lemma rpm_le_of_abs_rpm_le {x y : ℝ} (h : |rpmOf x| ≤ rpmOf y) : |x| ≤ y := by
  unfold rpmOf at h
  rw [abs_div, abs_of_pos two_pi_pos, abs_mul] at h
  have h60 : |(60 : ℝ)| = 60 := by norm_num
  rw [h60, div_le_div_right two_pi_pos] at h
  exact (mul_le_mul_right (by norm_num : (0 : ℝ) < 60)).mp h

/-- C6: every call of `Mouse::setWheelSpeedsForMovement` that completes (no
assertion fires) leaves every wheel with an angular velocity whose absolute
value is at most the wheel's maximum angular velocity magnitude. -/
theorem setWheelSpeedsForMovement_bounds (m : Mouse)
    (fractionOfMaxSpeed forwardFactor turnFactor : ℝ) (m2 : Mouse)
    (h : setWheelSpeedsForMovement m fractionOfMaxSpeed forwardFactor
        turnFactor = some m2) :
    ∀ w ∈ m2.wheels, |w.angularVelocity| ≤ w.maxAngularVelocityMagnitude := by
  intro w hw
  unfold setWheelSpeedsForMovement setWheelSpeeds at h
  by_cases h01 : 0 ≤ |(normalizedFactors forwardFactor turnFactor).1| +
        |(normalizedFactors forwardFactor turnFactor).2| ∧
      |(normalizedFactors forwardFactor turnFactor).1| +
        |(normalizedFactors forwardFactor turnFactor).2| ≤ 1
  · rw [if_pos h01] at h
    by_cases hall : ∀ p ∈ m.wheels.zip
        (movementWheelSpeeds m fractionOfMaxSpeed forwardFactor turnFactor),
        |rpmOf p.2| ≤ rpmOf p.1.maxAngularVelocityMagnitude
    · rw [if_pos hall] at h
      rw [Option.some_inj] at h
      subst h
      simp only [] at hw
      obtain ⟨p, hp, rfl⟩ := List.mem_map.mp hw
      exact rpm_le_of_abs_rpm_le (hall p hp)
    · rw [if_neg hall] at h
      exact absurd h (by simp)
  · rw [if_neg h01] at h
    exact absurd h (by simp)

/-- Sample one-wheel mouse for the C6 witness. -/
noncomputable def W6 : Wheel :=
  { initialPosition := (0, 1)
    initialDirection := 0
    radius := 1
    maxAngularVelocityMagnitude := 1
    angularVelocity := 0
    rotation := 0
    initialPolygon := [] }

noncomputable def M6 : Mouse :=
  { initialTranslation := (0, 0)
    initialRotation := 0
    currentTranslation := (0, 0)
    currentRotation := 0
    currentGyro := 0
    elapsedSimTime := 0
    initialBodyPolygon := []
    wheels := [W6]
    sensors := []
    wheelSpeedAdjustmentFactors := [(1, 0)]
    curveTurnFactors := (0, 1) }

noncomputable def M6res : Mouse :=
  { M6 with wheels := [{ W6 with angularVelocity := 1 }] }

lemma normalizedFactors_one_zero : normalizedFactors 1 0 = (1, 0) := by
  unfold normalizedFactors factorMagnitude
  norm_num

lemma movementWheelSpeeds_M6 : movementWheelSpeeds M6 1 1 0 = [1] := by
  unfold movementWheelSpeeds
  rw [normalizedFactors_one_zero]
  show ([W6].zip [((1 : ℝ), (0 : ℝ))]).map _ = [1]
  simp [W6]

lemma rpmOf_one_pos : (0 : ℝ) < rpmOf 1 := by
  unfold rpmOf
  positivity

lemma setWheelSpeedsForMovement_M6 :
    setWheelSpeedsForMovement M6 1 1 0 = some M6res := by
  unfold setWheelSpeedsForMovement
  rw [normalizedFactors_one_zero]
  rw [if_pos (by norm_num)]
  rw [movementWheelSpeeds_M6]
  unfold setWheelSpeeds
  rw [if_pos ?hall]
  case hall =>
    intro p hp
    have hzip : M6.wheels.zip [(1 : ℝ)] = [(W6, (1 : ℝ))] := rfl
    rw [hzip] at hp
    rw [List.mem_singleton] at hp
    subst hp
    show |rpmOf 1| ≤ rpmOf W6.maxAngularVelocityMagnitude
    have hmax : W6.maxAngularVelocityMagnitude = 1 := rfl
    rw [hmax, abs_of_pos rpmOf_one_pos]
  have hzip : M6.wheels.zip [(1 : ℝ)] = [(W6, (1 : ℝ))] := rfl
  rw [hzip]
  rfl

/-- C6 (witness): the bound theorem applied to the concrete mouse `M6`, one
wheel at its maximum speed. -/
theorem setWheelSpeedsForMovement_bounds_witness :
    setWheelSpeedsForMovement M6 1 1 0 = some M6res ∧
    ({ W6 with angularVelocity := 1 } : Wheel) ∈ M6res.wheels ∧
    |({ W6 with angularVelocity := 1 } : Wheel).angularVelocity| ≤
      ({ W6 with angularVelocity := 1 } : Wheel).maxAngularVelocityMagnitude :=
  ⟨setWheelSpeedsForMovement_M6,
   List.mem_singleton.mpr rfl,
   setWheelSpeedsForMovement_bounds M6 1 1 0 M6res
     setWheelSpeedsForMovement_M6 _ (List.mem_singleton.mpr rfl)⟩

lemma normalized_sum_one {fw tu : ℝ} (h : factorMagnitude fw tu ≠ 0) :
    |(normalizedFactors fw tu).1| + |(normalizedFactors fw tu).2| = 1 := by
  have hpos : 0 < factorMagnitude fw tu := by
    rcases lt_or_eq_of_le (by unfold factorMagnitude; positivity :
      (0 : ℝ) ≤ factorMagnitude fw tu) with hlt | heq
    · exact hlt
    · exact absurd heq.symm h
  unfold normalizedFactors
  rw [abs_div, abs_div, abs_of_pos hpos, div_add_div_same]
  exact div_self h

lemma zip_const_zero_map (ws : List Wheel) :
    ((ws.zip (ws.map fun _ => (0 : ℝ))).map fun p =>
      { p.1 with angularVelocity := p.2 }) =
    ws.map fun w => { w with angularVelocity := 0 } := by
  induction ws with
  | nil => rfl
  | cons a t ih => simp only [List.map_cons, List.zip_cons_cons, ih]

/-- C10: the normalization in `Mouse::setWheelSpeedsForMovement` divides by
`factorMagnitude = |forwardFactor| + |turnFactor|` with no zero guard: when
the divisor is nonzero the normalized magnitudes sum to exactly one (so the
internal bound assertions pass and the call proceeds to `setWheelSpeeds`),
while the call with both factors zero has divisor exactly zero; stopping is
provided separately by `Mouse::stopAllWheels`, which passes zero speeds
straight to `setWheelSpeeds`, bypassing the normalization. -/
theorem normalization_division_behavior :
    (∀ fw tu : ℝ, factorMagnitude fw tu ≠ 0 →
      |(normalizedFactors fw tu).1| + |(normalizedFactors fw tu).2| = 1) ∧
    factorMagnitude 0 0 = 0 ∧
    (∀ (m : Mouse) (f fw tu : ℝ), factorMagnitude fw tu ≠ 0 →
      setWheelSpeedsForMovement m f fw tu =
        setWheelSpeeds m (movementWheelSpeeds m f fw tu)) ∧
    (∀ m : Mouse, (∀ w ∈ m.wheels, 0 ≤ w.maxAngularVelocityMagnitude) →
      stopAllWheels m =
        some { m with wheels := m.wheels.map fun w =>
          { w with angularVelocity := 0 } }) := by
  refine ⟨fun fw tu h => normalized_sum_one h, ?_, ?_, ?_⟩
  · unfold factorMagnitude
    norm_num
  · intro m f fw tu h
    unfold setWheelSpeedsForMovement
    simp only []
    rw [normalized_sum_one h]
    rw [if_pos (by norm_num)]
  · intro m hmax
    unfold stopAllWheels setWheelSpeeds
    rw [if_pos ?hall]
    case hall =>
      intro p hp
      have hp2 : p.2 = 0 := by
        have := (List.of_mem_zip hp).2
        rw [List.mem_map] at this
        obtain ⟨_, _, hz⟩ := this
        exact hz.symm
      have hp1 : p.1 ∈ m.wheels := (List.of_mem_zip hp).1
      rw [hp2]
      have h0 : rpmOf 0 = 0 := by unfold rpmOf; ring
      rw [h0, abs_zero]
      unfold rpmOf
      have := hmax p.1 hp1
      positivity
    rw [zip_const_zero_map]

/-- Sample one-wheel mouse for the C10 witness. -/
noncomputable def W10 : Wheel :=
  { initialPosition := (1, 0)
    initialDirection := 0
    radius := 1
    maxAngularVelocityMagnitude := 1
    angularVelocity := 2
    rotation := 0
    initialPolygon := [] }

noncomputable def M10 : Mouse :=
  { initialTranslation := (0, 0)
    initialRotation := 0
    currentTranslation := (0, 0)
    currentRotation := 0
    currentGyro := 0
    elapsedSimTime := 0
    initialBodyPolygon := []
    wheels := [W10]
    sensors := []
    wheelSpeedAdjustmentFactors := [(1, 0)]
    curveTurnFactors := (0, 1) }

lemma factorMagnitude_one_zero_ne : factorMagnitude 1 0 ≠ 0 := by
  unfold factorMagnitude
  norm_num

lemma M10_max_nonneg : ∀ w ∈ M10.wheels, 0 ≤ w.maxAngularVelocityMagnitude := by
  intro w hw
  have h : M10.wheels = [W10] := rfl
  rw [h, List.mem_singleton] at hw
  subst hw
  show (0 : ℝ) ≤ 1
  norm_num

/-- C10 (witness): the normalization equality at (1, 0) and the stop-all
behavior at the concrete mouse `M10`. -/
theorem normalization_division_behavior_witness :
    (factorMagnitude 1 0 ≠ 0 ∧
     |(normalizedFactors 1 0).1| + |(normalizedFactors 1 0).2| = 1) ∧
    ((∀ w ∈ M10.wheels, 0 ≤ w.maxAngularVelocityMagnitude) ∧
     stopAllWheels M10 =
       some { M10 with wheels := M10.wheels.map fun w =>
         { w with angularVelocity := 0 } }) :=
  ⟨⟨factorMagnitude_one_zero_ne,
    normalization_division_behavior.1 1 0 factorMagnitude_one_zero_ne⟩,
   ⟨M10_max_nonneg,
    normalization_division_behavior.2.2.2 M10 M10_max_nonneg⟩⟩

/-- C8: `MazeFileUtilities::isMazeFileMapType` returns false for every path,
so content inspection never detects the map format; in particular the
precondition assertion of `loadMazeFileMapType` can never hold. -/
theorem isMazeFileMapType_never_detects :
    (∀ p : String, isMazeFileMapType p = false) ∧
    isMazeFileMapType "res/mazes/example.map" = false :=
  ⟨fun _ => rfl, rfl⟩

/-! Maze codec lemmas: the saved form of a grid decodes and validates. -/

lemma tileOfTokens_tileLine (x y : Nat) (t : BasicTile) :
    tileOfTokens (tileLine x y t) = t := by
  rcases t with ⟨a, b, c, d⟩
  cases a <;> cases b <;> cases c <;> cases d <;> rfl

lemma tileLine_headI (x y : Nat) (t : BasicTile) :
    (tileLine x y t).headI = (x : Int) := rfl

lemma tileLine_length (x y : Nat) (t : BasicTile) :
    (tileLine x y t).length = 6 := rfl

lemma tileLine_getD0 (x y : Nat) (t : BasicTile) :
    (tileLine x y t).getD 0 0 = (x : Int) := rfl

lemma tileLine_getD1 (x y : Nat) (t : BasicTile) :
    (tileLine x y t).getD 1 0 = (y : Int) := rfl

lemma wallCheckAux_tileLine (x y : Nat) (t : BasicTile) (n : Nat) :
    wallCheckAux (tileLine x y t) n [0, 1, 2, 3] = none := by
  rcases t with ⟨a, b, c, d⟩
  cases a <;> cases b <;> cases c <;> cases d <;> rfl

lemma loadNumAux_col (x : Nat) (ts : List BasicTile) :
    ∀ (y : Nat) (rest : List (List Int)) (maze : BasicMaze)
      (column : List BasicTile),
    ¬ ((maze.length : Int) < (x : Int)) →
    loadNumAux (saveColAux x y ts ++ rest) maze column =
      loadNumAux rest maze (column ++ ts) := by
  induction ts with
  | nil =>
    intro y rest maze column _
    simp [saveColAux]
  | cons t ts ih =>
    intro y rest maze column hx
    simp only [saveColAux, List.cons_append, List.append_eq, loadNumAux,
      tileLine_headI, tileOfTokens_tileLine]
    rw [if_neg hx]
    rw [ih (y + 1) rest maze (column ++ [t]) hx]
    rw [List.append_assoc, List.singleton_append]

lemma loadNumAux_cols (cs : List (List BasicTile)) :
    ∀ (maze : BasicMaze) (col : List BasicTile),
    (∀ c ∈ cs, c ≠ []) →
    loadNumAux (saveNumAux (maze.length + 1) cs) maze col =
      maze ++ col :: cs := by
  induction cs with
  | nil =>
    intro maze col _
    simp [saveNumAux, loadNumAux]
  | cons c cs ih =>
    intro maze col hne
    obtain ⟨t, ts, rfl⟩ : ∃ t ts, c = t :: ts := by
      cases c with
      | nil => exact absurd rfl (hne [] (by simp))
      | cons t ts => exact ⟨t, ts, rfl⟩
    simp only [saveNumAux, saveColAux, List.cons_append, List.append_eq,
      zero_add, loadNumAux, tileLine_headI, tileOfTokens_tileLine]
    rw [if_pos (by exact_mod_cast Nat.lt_succ_self maze.length)]
    rw [loadNumAux_col (maze.length + 1) ts 1 _ (maze ++ [col]) [t]
      (by simp)]
    rw [List.singleton_append]
    have hlen : maze.length + 1 + 1 = (maze ++ [col]).length + 1 := by simp
    rw [hlen]
    rw [ih (maze ++ [col]) (t :: ts) (fun c hc => hne c (by simp [hc]))]
    simp

lemma loadNum_saveNum (M : BasicMaze) (h1 : M ≠ [])
    (h2 : ∀ c ∈ M, c ≠ []) :
    loadNumAux (saveNumAux 0 M) [] [] = M := by
  obtain ⟨c, cs, rfl⟩ : ∃ c cs, M = c :: cs := by
    cases M with
    | nil => exact absurd rfl h1
    | cons c cs => exact ⟨c, cs, rfl⟩
  obtain ⟨t, ts, rfl⟩ : ∃ t ts, c = t :: ts := by
    cases c with
    | nil => exact absurd rfl (h2 [] (by simp))
    | cons t ts => exact ⟨t, ts, rfl⟩
  simp only [saveNumAux, saveColAux, List.cons_append, List.append_eq,
    zero_add, loadNumAux, tileLine_headI, tileOfTokens_tileLine]
  rw [if_neg (by simp)]
  rw [loadNumAux_col 0 ts 1 _ [] ([] ++ [t]) (by simp)]
  rw [List.nil_append, List.singleton_append]
  rw [show (1 : Nat) = List.length ([] : BasicMaze) + 1 from rfl]
  rw [loadNumAux_cols cs [] (t :: ts) (fun c hc => h2 c (by simp [hc]))]
  simp

lemma checkNumAux_col (x : Nat) (ts : List BasicTile) :
    ∀ (y n : Nat) (rest : List (List Int)),
    checkNumAux (saveColAux x y ts ++ rest) n (x : Int) (y : Int) =
      checkNumAux rest (n + ts.length) (x : Int) ((y + ts.length : Nat) : Int) := by
  induction ts with
  | nil =>
    intro y n rest
    simp [saveColAux]
  | cons t ts ih =>
    intro y n rest
    simp only [saveColAux, List.cons_append, List.append_eq, checkNumAux,
      tileLine_getD0, tileLine_getD1]
    rw [if_pos (tileLine_length x y t)]
    rw [if_pos (by simp)]
    rw [wallCheckAux_tileLine]
    show checkNumAux (saveColAux x (y + 1) ts ++ rest) (n + 1) (x : Int)
        ((y : Int) + 1) = _
    have hcast : (y : Int) + 1 = ((y + 1 : Nat) : Int) := by push_cast; ring
    rw [hcast]
    rw [ih (y + 1) (n + 1) rest]
    simp only [List.length_cons]
    have hn : n + 1 + ts.length = n + (ts.length + 1) := by omega
    have hy : ((y + 1 + ts.length : Nat) : Int) =
        ((y + (ts.length + 1) : Nat) : Int) := by omega
    rw [hn, hy]

lemma checkNumAux_cols (cs : List (List BasicTile)) :
    ∀ (x n : Nat) (ey : Int), ey ≠ 0 → (∀ c ∈ cs, c ≠ []) →
    checkNumAux (saveNumAux (x + 1) cs) n (x : Int) ey = none := by
  induction cs with
  | nil =>
    intro x n ey _ _
    rfl
  | cons c cs ih =>
    intro x n ey hey hne
    obtain ⟨t, ts, rfl⟩ : ∃ t ts, c = t :: ts := by
      cases c with
      | nil => exact absurd rfl (hne [] (by simp))
      | cons t ts => exact ⟨t, ts, rfl⟩
    simp only [saveNumAux, saveColAux, List.cons_append, List.append_eq,
      zero_add, checkNumAux, tileLine_getD0, tileLine_getD1]
    rw [if_pos (tileLine_length (x + 1) 0 t)]
    rw [if_neg ?hno]
    case hno =>
      intro hc
      have := hc.1
      omega
    rw [if_pos ⟨by omega, by omega, hey⟩]
    rw [wallCheckAux_tileLine]
    show checkNumAux (saveColAux (x + 1) 1 ts ++ saveNumAux (x + 1 + 1) cs)
        (n + 1) ((x : Int) + 1) 1 = none
    have hx1 : ((x : Int) + 1) = ((x + 1 : Nat) : Int) := by push_cast; ring
    have h1 : (1 : Int) = ((1 : Nat) : Int) := by norm_cast
    rw [hx1, h1, checkNumAux_col (x + 1) ts 1 (n + 1) (saveNumAux (x + 1 + 1) cs)]
    exact ih (x + 1) (n + 1 + ts.length) _
      (by omega)
      (fun c hc => hne c (by simp [hc]))

lemma checkNum_saveNum (M : BasicMaze) (h1 : M ≠ [])
    (h2 : ∀ c ∈ M, c ≠ []) :
    isMazeFileNumType (saveMazeFileNumType M) = true := by
  obtain ⟨c, cs, rfl⟩ : ∃ c cs, M = c :: cs := by
    cases M with
    | nil => exact absurd rfl h1
    | cons c cs => exact ⟨c, cs, rfl⟩
  obtain ⟨t, ts, rfl⟩ : ∃ t ts, c = t :: ts := by
    cases c with
    | nil => exact absurd rfl (h2 [] (by simp))
    | cons t ts => exact ⟨t, ts, rfl⟩
  unfold isMazeFileNumType isMazeFileNumTypeE saveMazeFileNumType
  simp only [saveNumAux, saveColAux, List.cons_append, List.append_eq,
    zero_add]
  rw [if_neg (by simp)]
  rw [Option.isNone_iff_eq_none]
  simp only [checkNumAux, tileLine_getD0, tileLine_getD1]
  rw [if_pos (tileLine_length 0 0 t)]
  rw [if_pos (by simp)]
  rw [wallCheckAux_tileLine]
  show checkNumAux (saveColAux 0 1 ts ++ saveNumAux 1 cs) (0 + 1) 0
      ((0 : Int) + 1) = none
  rw [show ((0 : Int) + 1) = ((1 : Nat) : Int) by omega]
  rw [show (0 : Int) = ((0 : Nat) : Int) by omega]
  rw [checkNumAux_col 0 ts 1 (0 + 1) (saveNumAux 1 cs)]
  rw [show (1 : Nat) = 0 + 1 from rfl]
  exact checkNumAux_cols cs 0 _ _
    (by omega)
    (fun c hc => h2 c (by simp [hc]))

/-- C4: saving a nonempty well-formed (all columns nonempty, rectangular)
grid with `saveMazeFileNumType` - all tiles in column-major order, walls in
the fixed order N, E, S, W - and loading the result with
`loadMazeFileNumType` returns the grid unchanged. -/
theorem saveNum_loadNum_roundtrip (M : BasicMaze) (h1 : M ≠ [])
    (h2 : ∀ c ∈ M, c ≠ []) (h3 : ∀ c ∈ M, c.length = M.headI.length) :
    loadMazeFileNumType (saveMazeFileNumType M) = some M := by
  unfold loadMazeFileNumType
  rw [checkNum_saveNum M h1 h2]
  rw [if_pos rfl]
  rw [saveMazeFileNumType, loadNum_saveNum M h1 h2]

/-- The 2 by 2 maze of the spec's scenario S1. -/
def S1maze : BasicMaze :=
  [[⟨true, false, false, true⟩, ⟨true, true, false, false⟩],
   [⟨false, false, true, true⟩, ⟨false, true, true, false⟩]]

/-- C4 (witness): the round trip at the concrete 2 by 2 maze of scenario S1. -/
theorem saveNum_loadNum_roundtrip_witness :
    S1maze ≠ [] ∧ (∀ c ∈ S1maze, c ≠ []) ∧
    (∀ c ∈ S1maze, c.length = S1maze.headI.length) ∧
    loadMazeFileNumType (saveMazeFileNumType S1maze) = some S1maze :=
  ⟨by decide, by decide, by decide,
   saveNum_loadNum_roundtrip S1maze (by decide) (by decide) (by decide)⟩

/-- The two-line asymmetric numeric file: tile (0,0) claims an east wall,
tile (1,0) claims no west wall. -/
def asymLines : List (List Int) :=
  [[0, 0, 0, 1, 0, 0], [1, 0, 0, 0, 0, 0]]

/-- The grid that `loadMaze` produces from `asymLines`. -/
def asymMaze : BasicMaze :=
  [[⟨false, true, false, false⟩], [⟨false, false, false, false⟩]]

/-- C3 (counterexample): `loadMaze` accepts the asymmetric file `asymLines`
and returns its wall values verbatim; the shared wall between the adjacent
tiles (0,0) and (1,0) disagrees between its two sides, so the loaded maze
violates wall symmetry and no symmetrization happened. -/
theorem loadMaze_asymmetric_example :
    loadMaze "res/mazes/asym.num" asymLines = some asymMaze ∧
    hasWall asymMaze 0 0 Direction.EAST = true ∧
    hasWall asymMaze 1 0 Direction.WEST = false := by
  decide

/-- C3 (amended): `loadMaze` performs no symmetrization: it reproduces the
file's wall values verbatim, so the shared wall booleans of adjacent tiles
agree exactly when the file's two sides agree; loading the saved form of
any nonempty grid with nonempty columns - symmetric or not - returns that
grid unchanged. -/
theorem loadMaze_no_symmetrization (path : String) (M : BasicMaze)
    (h1 : M ≠ []) (h2 : ∀ c ∈ M, c ≠ []) :
    loadMaze path (saveMazeFileNumType M) = some M := by
  unfold loadMaze isMazeFileBinType isMazeFileMapType
  rw [if_neg (by simp), if_neg (by simp)]
  rw [checkNum_saveNum M h1 h2]
  rw [if_pos rfl]
  rw [saveMazeFileNumType, loadNum_saveNum M h1 h2]

/-- C3 (amended, witness): the amended statement applied to the concrete
asymmetric grid `asymMaze`: saving and loading it returns it verbatim, its
asymmetric walls included. -/
theorem loadMaze_no_symmetrization_witness :
    asymMaze ≠ [] ∧ (∀ c ∈ asymMaze, c ≠ []) ∧
    loadMaze "res/mazes/asym.num" (saveMazeFileNumType asymMaze) =
      some asymMaze :=
  ⟨by decide, by decide,
   loadMaze_no_symmetrization "res/mazes/asym.num" asymMaze
     (by decide) (by decide)⟩

/-! C7: validation enforces ordering and uniqueness. -/

lemma checkNumAux_chain (lines : List (List Int)) :
    ∀ (n : Nat) (ex ey : Int), checkNumAux lines n ex ey = none →
    List.Chain coordLt (ex, ey - 1) (lines.map lineCoords) := by
  induction lines with
  | nil =>
    intro n ex ey _
    exact List.Chain.nil
  | cons line rest ih =>
    intro n ex ey h
    simp only [checkNumAux] at h
    by_cases h6 : line.length = 6
    case neg =>
      rw [if_neg h6] at h
      exact absurd h (by simp)
    rw [if_pos h6] at h
    by_cases hc1 : line.getD 0 0 = ex ∧ line.getD 1 0 = ey
    · rw [if_pos hc1] at h
      cases hw : wallCheckAux line (n + 1) [0, 1, 2, 3] with
      | some e =>
        rw [hw] at h
        exact absurd h (by simp)
      | none =>
        rw [hw] at h
        have hch := ih (n + 1) ex (ey + 1) h
        rw [show ey + 1 - 1 = ey by ring] at hch
        have hcoord : lineCoords line = (ex, ey) := by
          unfold lineCoords
          rw [hc1.1, hc1.2]
        simp only [List.map_cons, hcoord]
        exact List.Chain.cons (Or.inr ⟨rfl, by omega⟩) hch
    · rw [if_neg hc1] at h
      by_cases hc2 : line.getD 0 0 = ex + 1 ∧ line.getD 1 0 = 0 ∧ ey ≠ 0
      · rw [if_pos hc2] at h
        cases hw : wallCheckAux line (n + 1) [0, 1, 2, 3] with
        | some e =>
          rw [hw] at h
          exact absurd h (by simp)
        | none =>
          rw [hw] at h
          have hch := ih (n + 1) (ex + 1) 1 h
          rw [show (1 : Int) - 1 = 0 by ring] at hch
          have hcoord : lineCoords line = (ex + 1, 0) := by
            unfold lineCoords
            rw [hc2.1, hc2.2.1]
          simp only [List.map_cons, hcoord]
          exact List.Chain.cons (Or.inl (by omega)) hch
      · rw [if_neg hc2] at h
        exact absurd h (by simp)

/-- C7: a numeric-form file that validates has its (x, y) records pairwise
strictly increasing in column-major (x, then y) order - so ordering
violations and duplicate coordinates are always rejected - and the concrete
file whose first two lines both carry x = 0 and y = 0 is rejected with the
unexpected-x-and-y diagnostic naming the values 0 and 0 and line number 2. -/
theorem isMazeFileNumType_rejects_disorder :
    (∀ lines : List (List Int), isMazeFileNumType lines = true →
      (lines.map lineCoords).Pairwise coordLt) ∧
    isMazeFileNumTypeE [[0, 0, 1, 0, 0, 1], [0, 0, 1, 1, 0, 0]] =
      some (NumErr.unexpectedXY 0 0 2) := by
  constructor
  · intro lines h
    cases lines with
    | nil => exact List.Pairwise.nil
    | cons l ls =>
      unfold isMazeFileNumType isMazeFileNumTypeE at h
      rw [if_neg (by simp)] at h
      rw [Option.isNone_iff_eq_none] at h
      have hch := checkNumAux_chain (l :: ls) 0 0 0 h
      exact (List.chain_iff_pairwise.mp hch).of_cons
  · decide

/-- The numeric file of the spec's scenario S1, used as the accepted input
of the C7 witness. -/
def goodLines : List (List Int) :=
  [[0, 0, 1, 0, 0, 1], [0, 1, 1, 1, 0, 0], [1, 0, 0, 0, 1, 1],
   [1, 1, 0, 1, 1, 0]]

/-- C7 (witness): the ordering consequence at the concrete accepted file of
scenario S1. -/
theorem isMazeFileNumType_rejects_disorder_witness :
    isMazeFileNumType goodLines = true ∧
    (goodLines.map lineCoords).Pairwise coordLt :=
  ⟨by decide, isMazeFileNumType_rejects_disorder.1 goodLines (by decide)⟩

end MMS
